import Mathlib

/-!
Shallow embedding of the Laplacian solver in src/src/lsolver.cpp.

Machine `double` arithmetic is modelled by exact rationals (ℚ); 64-bit
unsigned arithmetic by ℕ with explicit reduction modulo 2^64; the C arrays
by functions ℕ → _ (point updates via `upd`) or by lists; the `assert`
in `Lsolver::solve` by an `Except` error value.  The tolerance constants
e1 and e2 live in lsolver.h (not part of src/); they are kept as explicit
parameters throughout, exactly as the expression `0.75*(1 - e1 - e2)` on
line 222 of lsolver.cpp uses them.
-/

set_option maxRecDepth 100000

/-- Point update of a function-modelled array: `upd f i v` is the array `f`
with slot `i` overwritten by `v`. -/
def upd {α : Type} (f : ℕ → α) (i : ℕ) (v : α) : ℕ → α :=
  fun j => if j = i then v else f j

/-- State of the hand-rolled xorshift generator: the three static
`unsigned long` variables x, y, z of lsolver.cpp (64-bit words). -/
structure Rng where
  x : ℕ
  y : ℕ
  z : ℕ
deriving DecidableEq

/-- The initial seeds `x = 123456789, y = 362436069, z = 521288629`. -/
def rngInit : Rng := ⟨123456789, 362436069, 521288629⟩

/-- One `unsigned long` (64-bit) word: values are kept below `2^64`. -/
def U64 : ℕ := 2 ^ 64

/-- The scrambling of the variable `x` at the start of `xorshf96`:
`x ^= x << 16; x ^= x >> 5; x ^= x << 1;` on 64-bit words. -/
def xscramble (x : ℕ) : ℕ :=
  let x1 := (x ^^^ (x <<< 16)) % U64
  let x2 := x1 ^^^ (x1 >>> 5)
  (x2 ^^^ (x2 <<< 1)) % U64

/-- `xorshf96` of lsolver.cpp: scramble x, rotate the three state words,
fold the scrambled value into z, and return the new z. -/
def xorshf96 (s : Rng) : ℕ × Rng :=
  let t := xscramble s.x
  let x := s.y
  let y := s.z
  let z := (t ^^^ x) ^^^ y
  (z, ⟨x, y, z⟩)

/-- The constant `MAX = 18446744073709551615ULL = 2^64 - 1` of lsolver.cpp. -/
def MAX : ℕ := 18446744073709551615

/-- `random_double()` of lsolver.cpp: `(double) xorshf96()/MAX`.
Note the divisor is `2^64 - 1`, the largest value `xorshf96` can return. -/
def random_double (s : Rng) : ℚ × Rng :=
  let r := xorshf96 s
  ((r.1 : ℚ) / (MAX : ℚ), r.2)

/-- `trueWithProbability(p)` of lsolver.cpp: `random_double() <= p`. -/
def trueWithProbability (p : ℚ) (s : Rng) : Bool × Rng :=
  let r := random_double s
  (decide (r.1 ≤ p), r.2)

/-- `Lsolver::pickRandomNeighbor`: draw a column `col = (int)(random_double()*n)`,
then return `col` if a second uniform draw is below `prob[col]`, else
`alias[col]` (the C cast from double to int truncates; all values here are
nonnegative, so truncation is the floor).  The C parameter `alias` is a
reserved word in Lean and is rendered `aliasT` throughout. -/
def pickRandomNeighbor (n : ℕ) (aliasT prob : ℕ → ℚ) (s : Rng) : ℕ × Rng :=
  let r1 := random_double s
  let col : ℕ := (Rat.floor (r1.1 * (n : ℚ))).toNat
  let r2 := random_double r1.2
  (if r2.1 < prob col then col else (Rat.floor (aliasT col)).toNat, r2.2)

/-! ### Alias-table construction (`AliasMethod`, lines 134-169) -/

/-- Working state of `AliasMethod`: the scaled probability array `P`, the
output arrays `prob` and `aliasT`, the two index stacks `small` and `large`
(C arrays used LIFO via `stop`/`ltop`), and an iteration counter for the
pairing loop (instrumentation; the C code has no counter). -/
structure AliasState where
  P : ℕ → ℚ
  prob : ℕ → ℚ
  aliasT : ℕ → ℚ
  small : List ℕ
  large : List ℕ
  iters : ℕ

/-- The classification loop of `AliasMethod` (lines 139-146): after scaling,
push each index with scaled mass `< 1` on `small`, the others on `large`
(stacks grow by push-on-top, matching `small[stop++] = i`). -/
def aliasPartition (n : ℕ) (Ps : ℕ → ℚ) : List ℕ × List ℕ :=
  (List.range n).foldl
    (fun sl i => if Ps i < 1 then (i :: sl.1, sl.2) else (sl.1, i :: sl.2))
    ([], [])

/-- The pairing loop of `AliasMethod` (lines 148-162), with explicit fuel:
while both stacks are non-empty, pop `less` from `small` and `more` from
`large`, finalize `prob[less] = P[less]`, `alias[less] = more`, deduct
`1 - P[less]` from `P[more]`, and re-classify `more`.  The fuel is an
embedding artifact: the fuel `AliasMethod` supplies is never exhausted,
as the C `while` loop exits with one stack empty after at most n
iterations (proved below). -/
def aliasLoop : ℕ → AliasState → AliasState
  | 0, st => st
  | fuel + 1, st =>
    match st.small, st.large with
    | less :: sT, more :: lT =>
      let pl := st.P less
      let pm := st.P more - (1 - pl)
      aliasLoop fuel
        ⟨upd st.P more pm, upd st.prob less pl, upd st.aliasT less (more : ℚ),
         if pm < 1 then more :: sT else sT,
         if pm < 1 then lT else more :: lT,
         st.iters + 1⟩
    | _, _ => st

/-- The scaling (line 140: `P[i] *= n`), partition and pairing loop of
`AliasMethod`, run from the caller-supplied (uninitialized, modelled as
given) output arrays. -/
def aliasLoopRun (n : ℕ) (P0 aliasT0 prob0 : ℕ → ℚ) : AliasState :=
  aliasLoop
    ((aliasPartition n (fun i => P0 i * (n : ℚ))).1.length
      + (aliasPartition n (fun i => P0 i * (n : ℚ))).2.length)
    ⟨(fun i => P0 i * (n : ℚ)), prob0, aliasT0,
     (aliasPartition n (fun i => P0 i * (n : ℚ))).1,
     (aliasPartition n (fun i => P0 i * (n : ℚ))).2, 0⟩

/-- `AliasMethod(n, P, alias, prob)` of lsolver.cpp: run the pairing loop,
then set `prob = 1` for every index left on either stack (lines 164-165),
and return the two tables `(alias, prob)`.  The function performs no check
on its input and has no failure path. -/
def AliasMethod (n : ℕ) (P0 aliasT0 prob0 : ℕ → ℚ) : (ℕ → ℚ) × (ℕ → ℚ) :=
  let st := aliasLoopRun n P0 aliasT0 prob0
  let prob1 := st.large.foldl (fun pr i => upd pr i 1) st.prob
  let prob2 := st.small.foldl (fun pr i => upd pr i 1) prob1
  (st.aliasT, prob2)

/-! ### Queue simulation (`Lsolver::estimateEta`, lines 93-132) -/

/-- State of the queue simulation: queues `Q`, inboxes `inQ`, the
non-empty-after-injection counters `cnt`, and the generator state. -/
structure SimState where
  Q : ℕ → ℕ
  inQ : ℕ → ℕ
  cnt : ℕ → ℕ
  rng : Rng

/-- The body of the per-vertex loop (lines 110-117): inject a packet with
probability `beta * J[i]`; if the queue is then non-empty, remove one
packet, count the vertex as busy, and route the packet into the inbox of a
neighbor sampled from the alias table of row `i`. -/
def vertexStep (n : ℕ) (aliasT prob : ℕ → ℕ → ℚ) (beta : ℚ) (J : ℕ → ℚ)
    (i : ℕ) (st : SimState) : SimState :=
  let inj := trueWithProbability (beta * J i) st.rng
  let q1 := st.Q i + (if inj.1 then 1 else 0)
  if q1 ≠ 0 then
    let dest := pickRandomNeighbor n (aliasT i) (prob i) inj.2
    ⟨upd st.Q i (q1 - 1), upd st.inQ dest.1 (st.inQ dest.1 + 1),
     upd st.cnt i (st.cnt i + 1), dest.2⟩
  else
    ⟨upd st.Q i q1, st.inQ, st.cnt, inj.2⟩

/-- The first phase of a simulated time step: process vertices
`0, …, n-2` in order (the sink `n-1` never injects or departs). -/
def vertexPhase (n : ℕ) (aliasT prob : ℕ → ℕ → ℚ) (beta : ℚ) (J : ℕ → ℚ)
    (st : SimState) : SimState :=
  (List.range (n - 1)).foldl (fun s i => vertexStep n aliasT prob beta J i s) st

/-- One step of the merge loop (lines 119-122): `Q[i] += inQ[i]; inQ[i] = 0`. -/
def mergeStep (st : SimState) (i : ℕ) : SimState :=
  ⟨upd st.Q i (st.Q i + st.inQ i), upd st.inQ i 0, st.cnt, st.rng⟩

/-- The second phase of a simulated time step: merge every inbox into its
queue and clear it, for all `i < n`. -/
def mergePhase (n : ℕ) (st : SimState) : SimState :=
  (List.range n).foldl mergeStep st

/-- One simulated time step (lines 110-122): the vertex phase for all
non-sink vertices followed by the merge phase. -/
def timeStep (n : ℕ) (aliasT prob : ℕ → ℕ → ℚ) (beta : ℚ) (J : ℕ → ℚ)
    (st : SimState) : SimState :=
  mergePhase n (vertexPhase n aliasT prob beta J st)

/-- `MAX_EPOCHS` of lsolver.cpp (line 91). -/
def MAX_EPOCHS : ℕ := 1000

/-- `LENGTH_OF_EPOCH` of lsolver.cpp (line 92). -/
def LENGTH_OF_EPOCH : ℕ := 1000

/-- The running sum `sum(n, Q)` over the first `n` queue slots. -/
def sumQ (n : ℕ) (Q : ℕ → ℕ) : ℕ := ((List.range n).map Q).sum

/-- The epoch loop of `estimateEta` (lines 104-125): run one epoch
(`step`), compute the convergence statistic, and continue while the
statistic drifted by more than `1e-4` and the epoch budget (`rem`,
initially `MAX_EPOCHS`, mirroring `epoch < MAX_EPOCHS`) is not exhausted.
Returns the number of epochs run and the final state. -/
def epochLoop (step : SimState → SimState) (summary : SimState → ℚ) :
    ℕ → ℚ → SimState → ℕ × SimState
  | 0, _, st => (0, st)
  | rem + 1, oldC, st =>
    let st2 := step st
    let newC := summary st2
    if |oldC - newC| > 1 / 10000 ∧ 0 < rem then
      let r := epochLoop step summary rem newC st2
      (r.1 + 1, r.2)
    else (1, st2)

/-- `Lsolver::estimateEta`: zero all counters, run epochs of
`LENGTH_OF_EPOCH` time steps until the statistic `Q[n-1]/(1 + sum(Q))`
stabilizes (or `MAX_EPOCHS` is hit), then report
`eta[i] = cnt[i]/T` for `i < n-1` and `eta[n-1] = 0`. -/
def estimateEta (n : ℕ) (aliasT prob : ℕ → ℕ → ℚ) (J : ℕ → ℚ)
    (beta : ℚ) (s : Rng) : List ℚ × Rng :=
  let st0 : SimState := ⟨fun _ => 0, fun _ => 0, fun _ => 0, s⟩
  let r := epochLoop ((timeStep n aliasT prob beta J)^[LENGTH_OF_EPOCH])
    (fun st => ((st.Q (n - 1) : ℚ)) / (1 + (sumQ n st.Q : ℚ)))
    MAX_EPOCHS 0 st0
  let T : ℚ := ((r.1 * LENGTH_OF_EPOCH : ℕ) : ℚ)
  ((List.range n).map (fun i => if i = n - 1 then 0 else (r.2.cnt i : ℚ) / T),
   r.2.rng)

/-! ### The β halving search (`Lsolver::computeEtaAtStationarity`, lines 187-232)
and the solver entry point (`Lsolver::solve`, lines 36-49). -/

/-- `max(n, a)` of lsolver.cpp (`*std::max_element`), on the list of the
array's n entries (the C call is only made with n ≥ 1). -/
def listMax : List ℚ → ℚ
  | [] => 0
  | h :: t => t.foldl max h

/-- `Lsolver::computeJ` (lines 51-55): `J[i] = -b[i]/b[n-1]`, with no
validation of `b[n-1]` whatsoever. -/
def computeJ (n : ℕ) (b : ℕ → ℚ) : ℕ → ℚ :=
  fun i => -(b i) / b (n - 1)

/-- `Lsolver::computeAliasAndProb` (lines 172-185): one alias table per row
of the transition matrix.  The freshly allocated (uninitialized) output
arrays are modelled as all-zero. -/
def computeAliasAndProb (n : ℕ) (P : ℕ → ℕ → ℚ) :
    (ℕ → ℕ → ℚ) × (ℕ → ℕ → ℚ) :=
  (fun i => (AliasMethod n (P i) (fun _ => 0) (fun _ => 0)).1,
   fun i => (AliasMethod n (P i) (fun _ => 0) (fun _ => 0)).2)

/-- The halving do-while loop of `computeEtaAtStationarity` (lines 216-222),
with the call to `estimateEta` abstracted as `est` and with explicit fuel:
halve β, estimate η, and repeat while `max(η) > bound` and `β > 0`.
`none` means the loop has not exited within `fuel` halvings (over exact
rationals a halved β never reaches 0, so the C loop's underflow exit
`beta > 0` turning false has no rational counterpart; the fuel makes the
recursion total). -/
def betaLoop (est : ℚ → Rng → List ℚ × Rng) (bound : ℚ) :
    ℕ → ℚ → Rng → Option (ℚ × List ℚ × Rng)
  | 0, _, _ => none
  | fuel + 1, beta, s =>
    let beta2 := beta / 2
    let r := est beta2 s
    if listMax r.1 > bound ∧ 0 < beta2 then betaLoop est bound fuel beta2 r.2
    else some (beta2, r.1, r.2)

/-- The same recursion as `betaLoop`, instrumented to record every
candidate β that the loop passes to the estimator, in order. -/
def betaCandidates (est : ℚ → Rng → List ℚ × Rng) (bound : ℚ) :
    ℕ → ℚ → Rng → List ℚ
  | 0, _, _ => []
  | fuel + 1, beta, s =>
    let beta2 := beta / 2
    let r := est beta2 s
    if listMax r.1 > bound ∧ 0 < beta2 then
      beta2 :: betaCandidates est bound fuel beta2 r.2
    else [beta2]

/-- `Lsolver::computeEtaAtStationarity`: compute `J` from `b`, build the
alias tables, and run the halving search from the initial guess
`beta = 1.28` (= 32/25) against the bound `0.75*(1 - e1 - e2)` (line 222);
`e1`, `e2` are the tolerance constants from lsolver.h, kept as parameters. -/
def computeEtaAtStationarity (n : ℕ) (P : ℕ → ℕ → ℚ) (b : ℕ → ℚ)
    (e1 e2 : ℚ) (fuel : ℕ) (s : Rng) : Option (ℚ × List ℚ × Rng) :=
  betaLoop
    (estimateEta n (computeAliasAndProb n P).1 (computeAliasAndProb n P).2
      (computeJ n b))
    (3 / 4 * (1 - e1 - e2)) fuel (32 / 25) s

/-- The pointwise canonical values of `computeCanonicalSolution`
(line 246): `x[i] = (-b[n-1]/beta) * (eta[i]/d[i])`, before centering. -/
def canonicalRaw (n : ℕ) (b d : ℕ → ℚ) (eta : List ℚ) (beta : ℚ) : List ℚ :=
  (List.range n).map fun i => (-(b (n - 1)) / beta) * (eta.getD i 0 / d i)

/-- `Lsolver::computeCanonicalSolution` (lines 234-256): the canonical
values shifted by their mean (`avg_x = sum(x)/n`, line 250). -/
def computeCanonicalSolution (n : ℕ) (b d : ℕ → ℚ) (eta : List ℚ)
    (beta : ℚ) : List ℚ :=
  (canonicalRaw n b d eta beta).map
    fun v => v - (canonicalRaw n b d eta beta).sum / (n : ℚ)

/-- The all-zero simulation state (the initialization loop of
`estimateEta`, lines 97-101), used as a concrete test state. -/
def simState0 : SimState := ⟨fun _ => 0, fun _ => 0, fun _ => 0, rngInit⟩

/-- The failure modes of `Lsolver::solve`.  The source has exactly one
guard after the search, `assert(beta > 0)` (line 42), which aborts the
whole solve call; it is modelled as this error value.  (The other assert,
`eta != NULL`, cannot fail in the embedding.)  Note there is no
invalid-input variant of any kind: `solve` never validates `b`. -/
inductive SolveError
  | betaNonpositive
deriving DecidableEq

/-- The tail of `Lsolver::solve` after the search has produced `beta` and
`eta`: the `assert(beta > 0)` abort, then `computeCanonicalSolution`. -/
def solveFromSearch (n : ℕ) (b d : ℕ → ℚ) (eta : List ℚ) (beta : ℚ) :
    Except SolveError (List ℚ) :=
  if 0 < beta then Except.ok (computeCanonicalSolution n b d eta beta)
  else Except.error SolveError.betaNonpositive

/-- `Lsolver::solve` (lines 36-49): run the halving search, then the
assert-guarded canonical-solution construction.  `none` is the fuel
artifact of `betaLoop`; the diagnostic print of β is I/O and not
modelled. -/
def solve (n : ℕ) (P : ℕ → ℕ → ℚ) (d b : ℕ → ℚ) (e1 e2 : ℚ)
    (fuel : ℕ) (s : Rng) : Option (Except SolveError (List ℚ)) :=
  (computeEtaAtStationarity n P b e1 e2 fuel s).map
    (fun r => solveFromSearch n b d r.2.1 r.1)

/-! ## Supporting lemmas -/

/-- The partition loop distributes each of the `n` indices to exactly one
stack. -/
theorem aliasPartition_foldl_length (Ps : ℕ → ℚ) (l : List ℕ)
    (acc : List ℕ × List ℕ) :
    ((l.foldl
      (fun sl i => if Ps i < 1 then (i :: sl.1, sl.2) else (sl.1, i :: sl.2))
      acc).1.length
     + (l.foldl
      (fun sl i => if Ps i < 1 then (i :: sl.1, sl.2) else (sl.1, i :: sl.2))
      acc).2.length)
      = l.length + acc.1.length + acc.2.length := by
  induction l generalizing acc with
  | nil => simp
  | cons h t ih =>
    by_cases hp : Ps h < 1 <;> simp [hp, ih] <;> omega

/-- The two stacks handed to the pairing loop hold `n` indices in total. -/
theorem aliasPartition_length (n : ℕ) (Ps : ℕ → ℚ) :
    (aliasPartition n Ps).1.length + (aliasPartition n Ps).2.length = n := by
  unfold aliasPartition
  rw [aliasPartition_foldl_length]
  simp

/-- Given enough fuel, the pairing loop runs at most
`small.length + large.length` iterations and exits with one stack empty
(the real exit condition of the C `while` loop). -/
theorem aliasLoop_iters_le (fuel : ℕ) :
    ∀ st : AliasState, st.small.length + st.large.length ≤ fuel →
      (aliasLoop fuel st).iters ≤ st.iters + st.small.length + st.large.length
      ∧ ((aliasLoop fuel st).small = [] ∨ (aliasLoop fuel st).large = []) := by
  induction fuel with
  | zero =>
    intro st h
    have hs : st.small = [] := List.length_eq_zero.mp (by omega)
    simp [aliasLoop, hs]
  | succ fuel ih =>
    intro st h
    obtain ⟨P, prob, aliasT, small, large, iters⟩ := st
    match small, large with
    | [], l => simp [aliasLoop]
    | less :: sT, [] => simp [aliasLoop]
    | less :: sT, more :: lT =>
      simp only [aliasLoop]
      have hlen : (if P more - (1 - P less) < 1 then more :: sT else sT).length
          + (if P more - (1 - P less) < 1 then lT else more :: lT).length
          = sT.length + lT.length + 1 := by
        by_cases hm : P more - (1 - P less) < 1 <;> simp [hm] <;> omega
      simp only [List.length_cons] at h
      have hrec := ih ⟨upd P more (P more - (1 - P less)), upd prob less (P less),
        upd aliasT less (more : ℚ),
        if P more - (1 - P less) < 1 then more :: sT else sT,
        if P more - (1 - P less) < 1 then lT else more :: lT, iters + 1⟩
        (by simp only; omega)
      simp only at hrec
      refine ⟨?_, hrec.2⟩
      have h1 := hrec.1
      simp only [List.length_cons]
      omega

/-! ## Claim theorems -/

/-- Claim C1 (code_bug evidence): the demand vector `b = [3, 0]` has
`b[n-1] = 0`, yet `computeJ` happily evaluates: the division
`-b[i]/b[n-1]` is performed with divisor 0 (exact rationals map it to 0;
the C doubles produce `-inf` and `NaN`) and a vector is returned.  Neither
`computeJ` nor `solve` contains any validation of `b`, and `SolveError`
(the model of the single `assert` in `solve`) has no invalid-input
variant, so no `InvalidInput` failure can ever be raised. -/
theorem claim_C1_computeJ_divides_by_zero_reference :
    computeJ 2 (fun i => if i = 0 then 3 else 0) 0 = 0
    ∧ computeJ 2 (fun i => if i = 0 then 3 else 0) 1 = 0 := by
  constructor <;> with_unfolding_all rfl

/-- Claim C4 (code_bug evidence): `random_double` divides by
`MAX = 2^64 - 1`, which is itself a value `xorshf96` can produce.  At the
64-bit generator state `x = 0, y = 0, z = 2^64 - 1` the next output is
exactly `2^64 - 1`, so `random_double` returns exactly 1 — outside the
claimed half-open interval [0,1) — and the column computation
`(int)(random_double()*n)` of `pickRandomNeighbor` then yields `n` (here
3), outside the claimed range [0,n). -/
theorem claim_C4_random_double_reaches_one :
    (random_double ⟨0, 0, 2 ^ 64 - 1⟩).1 = 1
    ∧ (Rat.floor ((random_double ⟨0, 0, 2 ^ 64 - 1⟩).1 * (3 : ℚ))).toNat = 3 := by
  constructor <;> with_unfolding_all rfl

/-- Claim C5 (code_bug evidence): `AliasMethod` contains no defensive
check at all.  Fed the length-2 distribution `P = [1/4, 1/4]` — whose sum
1/2 is nowhere near 1 — it silently builds and returns a table
(`prob = [1, 1]` here) instead of failing: its return type has no failure
path, mirroring the `void` C function with no check. -/
theorem claim_C5_alias_method_builds_table_without_sum_check :
    (AliasMethod 2 (fun _ => 1 / 4) (fun _ => 0) (fun _ => 0)).2 0 = 1
    ∧ (AliasMethod 2 (fun _ => 1 / 4) (fun _ => 0) (fun _ => 0)).2 1 = 1 := by
  constructor <;> with_unfolding_all rfl

/-- Claim C6 (confirmed): for every input distribution of length `n`, the
small/large pairing loop of `AliasMethod` terminates after at most `n`
iterations — indeed it exits with one of the two work stacks empty, which
is exactly the C loop's exit condition, so the `while` loop (and with it
`AliasMethod`, a total function by construction here) finishes within the
`n` units of fuel `aliasLoopRun` supplies. -/
theorem claim_C6_alias_loop_iteration_bound (n : ℕ)
    (P0 aliasT0 prob0 : ℕ → ℚ) :
    (aliasLoopRun n P0 aliasT0 prob0).iters ≤ n
    ∧ ((aliasLoopRun n P0 aliasT0 prob0).small = []
       ∨ (aliasLoopRun n P0 aliasT0 prob0).large = []) := by
  unfold aliasLoopRun
  have hlen := aliasPartition_length n (fun i => P0 i * (n : ℚ))
  have h := aliasLoop_iters_le
    ((aliasPartition n (fun i => P0 i * (n : ℚ))).1.length
      + (aliasPartition n (fun i => P0 i * (n : ℚ))).2.length)
    ⟨(fun i => P0 i * (n : ℚ)), prob0, aliasT0,
      (aliasPartition n (fun i => P0 i * (n : ℚ))).1,
      (aliasPartition n (fun i => P0 i * (n : ℚ))).2, 0⟩
    (le_refl _)
  simp only at h
  refine ⟨?_, h.2⟩
  have h1 := h.1
  omega

/-- The halving loop can only exit (return `some`) when its do-while
condition `max(eta) > bound && beta > 0` has just failed. -/
theorem betaLoop_exit (est : ℚ → Rng → List ℚ × Rng) (bound : ℚ) :
    ∀ (fuel : ℕ) (beta0 : ℚ) (s : Rng) (β : ℚ) (η : List ℚ) (s2 : Rng),
      betaLoop est bound fuel beta0 s = some (β, η, s2) →
      ¬(listMax η > bound ∧ 0 < β) := by
  intro fuel
  induction fuel with
  | zero => intro beta0 s β η s2 hr; simp [betaLoop] at hr
  | succ fuel ih =>
    intro beta0 s β η s2 hr
    simp only [betaLoop] at hr
    by_cases hc : listMax (est (beta0 / 2) s).1 > bound ∧ 0 < beta0 / 2
    · rw [if_pos hc] at hr
      exact ih (beta0 / 2) (est (beta0 / 2) s).2 β η s2 hr
    · rw [if_neg hc] at hr
      cases hr
      exact hc





/-- The β accepted by the halving loop is one of the recorded candidates. -/
theorem betaLoop_result_mem_candidates (est : ℚ → Rng → List ℚ × Rng)
    (bound : ℚ) :
    ∀ (fuel : ℕ) (beta0 : ℚ) (s : Rng) (β : ℚ) (η : List ℚ) (s2 : Rng),
      betaLoop est bound fuel beta0 s = some (β, η, s2) →
      β ∈ betaCandidates est bound fuel beta0 s := by
  intro fuel
  induction fuel with
  | zero => intro beta0 s β η s2 hr; simp [betaLoop] at hr
  | succ fuel ih =>
    intro beta0 s β η s2 hr
    simp only [betaLoop] at hr
    simp only [betaCandidates]
    by_cases hc : listMax (est (beta0 / 2) s).1 > bound ∧ 0 < beta0 / 2
    · rw [if_pos hc] at hr
      rw [if_pos hc]
      exact List.mem_cons_of_mem _ (ih (beta0 / 2) (est (beta0 / 2) s).2 β η s2 hr)
    · rw [if_neg hc] at hr
      cases hr
      rw [if_neg hc]
      exact List.mem_singleton_self _

/-- Claim C2 (confirmed): whenever the halving search returns an accepted
β (a positive β: the only kind `solve`'s assert lets through) together
with its occupancy estimate η, then `max(η) ≤ 0.75*(1 - e1 - e2)` — at
loop exit with β > 0 the do-while condition can only have failed on its
first conjunct. -/
theorem claim_C2_accepted_beta_eta_bound (n : ℕ) (P : ℕ → ℕ → ℚ)
    (b : ℕ → ℚ) (e1 e2 : ℚ) (fuel : ℕ) (s : Rng) (β : ℚ) (η : List ℚ)
    (s2 : Rng)
    (hret : computeEtaAtStationarity n P b e1 e2 fuel s = some (β, η, s2))
    (hpos : 0 < β) :
    listMax η ≤ 3 / 4 * (1 - e1 - e2) := by
  unfold computeEtaAtStationarity at hret
  have h := betaLoop_exit _ _ fuel (32 / 25) s β η s2 hret
  rcases not_and_or.mp h with h1 | h2
  · exact not_lt.mp h1
  · exact absurd hpos h2

/-- Witness for C2: on the degenerate 0-vertex instance the search accepts
β = 0.64 with η = [] on its first probe. -/
theorem claim_C2_witness :
    listMax [] ≤ 3 / 4 * (1 - 1 / 10 - 1 / 10) :=
  claim_C2_accepted_beta_eta_bound 0 (fun _ _ => 0) (fun _ => 0) (1 / 10)
    (1 / 10) 1 rngInit (16 / 25) [] rngInit (by with_unfolding_all rfl)
    (by norm_num)

/-- Claim C3 (confirmed): the search is guarded against running out of
candidates.  First conjunct: the halving loop never hands back an
unstable β that is positive — any `some` exit has `max(η) ≤ bound` or
`β ≤ 0` (the latter is the C loop's `beta > 0` underflow exit, which over
doubles returns β = 0).  Second conjunct: for any non-positive β the tail
of `solve` hard-fails (the `assert(beta > 0)` abort, modelled as
`SolveError.betaNonpositive`), so the solve call aborts rather than
building a solution from a non-positive or unstable β. -/
theorem claim_C3_beta_underflow_hard_failure :
    (∀ (est : ℚ → Rng → List ℚ × Rng) (bound : ℚ) (fuel : ℕ) (beta0 : ℚ)
       (s : Rng) (β : ℚ) (η : List ℚ) (s2 : Rng),
       betaLoop est bound fuel beta0 s = some (β, η, s2) →
       listMax η ≤ bound ∨ β ≤ 0)
    ∧ (∀ (n : ℕ) (b d : ℕ → ℚ) (η : List ℚ) (β : ℚ), β ≤ 0 →
       solveFromSearch n b d η β = Except.error SolveError.betaNonpositive) := by
  constructor
  · intro est bound fuel beta0 s β η s2 hr
    rcases not_and_or.mp (betaLoop_exit est bound fuel beta0 s β η s2 hr)
      with h1 | h2
    · exact Or.inl (not_lt.mp h1)
    · exact Or.inr (not_lt.mp h2)
  · intro n b d η β h
    unfold solveFromSearch
    rw [if_neg (not_lt.mpr h)]

/-- Witness for C3: a concrete stable exit of the loop, and the concrete
abort of `solve`'s tail at β = 0. -/
theorem claim_C3_witness :
    (listMax ([] : List ℚ) ≤ 3 / 5 ∨ (16 / 25 : ℚ) ≤ 0)
    ∧ solveFromSearch 0 (fun _ => 0) (fun _ => 0) [] 0
      = Except.error SolveError.betaNonpositive :=
  ⟨claim_C3_beta_underflow_hard_failure.1 (fun _ s => ([], s)) (3 / 5) 1
      (32 / 25) rngInit (16 / 25) [] rngInit (by with_unfolding_all rfl),
   claim_C3_beta_underflow_hard_failure.2 0 (fun _ => 0) (fun _ => 0) [] 0
      (le_refl 0)⟩

/-- The k-th candidate recorded by the halving search is `beta0 / 2^(k+1)`:
each successive candidate is exactly half the previous one. -/
theorem betaCandidates_getD (est : ℚ → Rng → List ℚ × Rng) (bound : ℚ) :
    ∀ (fuel : ℕ) (beta0 : ℚ) (s : Rng) (k : ℕ),
      k < (betaCandidates est bound fuel beta0 s).length →
      (betaCandidates est bound fuel beta0 s).getD k 0 = beta0 / 2 ^ (k + 1) := by
  intro fuel
  induction fuel with
  | zero => intro beta0 s k hk; simp [betaCandidates] at hk
  | succ fuel ih =>
    intro beta0 s k hk
    simp only [betaCandidates] at hk ⊢
    by_cases hc : listMax (est (beta0 / 2) s).1 > bound ∧ 0 < beta0 / 2
    · rw [if_pos hc] at hk ⊢
      match k with
      | 0 => simp
      | k + 1 =>
        rw [List.getD_cons_succ]
        rw [List.length_cons] at hk
        rw [ih (beta0 / 2) (est (beta0 / 2) s).2 k (by omega)]
        rw [div_div, ← pow_succ']
    · rw [if_neg hc] at hk ⊢
      match k with
      | 0 => simp
      | k + 1 => simp at hk

/-- Claim C9, amended (corrected): each successive candidate β passed to
the queue simulator is exactly half of the previous one (the k-th
candidate is `1.28 / 2^(k+1)`), so β strictly decreases and is never
increased once decreased.  The search, however, has no configured
iteration bound; that part of the original claim fails, see the
counterexample below. -/
theorem claim_C9_candidates_halve :
    (∀ (est : ℚ → Rng → List ℚ × Rng) (bound : ℚ) (fuel : ℕ) (beta0 : ℚ)
       (s : Rng) (k : ℕ),
       k < (betaCandidates est bound fuel beta0 s).length →
       (betaCandidates est bound fuel beta0 s).getD k 0 = beta0 / 2 ^ (k + 1))
    ∧ (∀ (est : ℚ → Rng → List ℚ × Rng) (bound : ℚ) (fuel : ℕ) (beta0 : ℚ)
       (s : Rng) (k : ℕ), 0 < beta0 →
       k + 1 < (betaCandidates est bound fuel beta0 s).length →
       (betaCandidates est bound fuel beta0 s).getD (k + 1) 0
         < (betaCandidates est bound fuel beta0 s).getD k 0) := by
  refine ⟨betaCandidates_getD, ?_⟩
  intro est bound fuel beta0 s k h0 hk
  rw [betaCandidates_getD est bound fuel beta0 s (k + 1) hk,
      betaCandidates_getD est bound fuel beta0 s k (by omega)]
  apply div_lt_div_of_pos_left h0 (by positivity)
  exact pow_lt_pow_right₀ (by norm_num) (by omega)

/-- Witness for C9: with an estimator that rejects the first candidate and
accepts the second, the candidate list is `[0.64, 0.32]`; its entries obey
the halving formula and strictly decrease. -/
theorem claim_C9_witness :
    (betaCandidates (fun q s => (if q < 16 / 25 then [] else [1], s)) (3 / 5)
        3 (32 / 25) rngInit).getD 0 0 = (32 / 25) / 2 ^ (0 + 1)
    ∧ (betaCandidates (fun q s => (if q < 16 / 25 then [] else [1], s)) (3 / 5)
        3 (32 / 25) rngInit).getD (0 + 1) 0
      < (betaCandidates (fun q s => (if q < 16 / 25 then [] else [1], s)) (3 / 5)
        3 (32 / 25) rngInit).getD 0 0 :=
  ⟨claim_C9_candidates_halve.1 (fun q s => (if q < 16 / 25 then [] else [1], s))
      (3 / 5) 3 (32 / 25) rngInit 0 (by with_unfolding_all decide),
   claim_C9_candidates_halve.2 (fun q s => (if q < 16 / 25 then [] else [1], s))
      (3 / 5) 3 (32 / 25) rngInit 0 (by norm_num) (by with_unfolding_all decide)⟩

/-- Claim C9, counterexample to the claimed iteration bound: against an
estimator whose occupancy estimate never meets the stability bound (as on
a malformed instance), the halving loop is still running after 1100
iterations — more than the roughly 1078 halvings after which the C
`double` β underflows to exactly 0, the source's only stopping mechanism
besides acceptance.  Over exact arithmetic no iteration bound exists at
all; the code configures none (`MAX_EPOCHS` bounds each simulation, not
the halving search). -/
theorem claim_C9_counterexample_no_configured_bound :
    betaLoop (fun _ s => ([1], s)) (3 / 5) 1100 (32 / 25) rngInit = none := by
  with_unfolding_all rfl

/-- Subtracting a constant from every entry lowers a list sum by
`length * c`. -/
theorem list_sum_map_sub (l : List ℚ) (c : ℚ) :
    (l.map fun v => v - c).sum = l.sum - l.length * c := by
  induction l with
  | nil => simp
  | cons h t ih => simp [ih]; ring

/-- Scaling every entry scales a list sum. -/
theorem list_sum_map_mul (c : ℚ) (l : List ℚ) :
    (l.map fun v => c * v).sum = c * l.sum := by
  simpa using List.sum_map_mul_left l id c

/-- The canonical-value list has one entry per vertex. -/
theorem canonicalRaw_length (n : ℕ) (b d : ℕ → ℚ) (eta : List ℚ) (beta : ℚ) :
    (canonicalRaw n b d eta beta).length = n := by
  simp [canonicalRaw]

/-- Claim C7 (confirmed): after `computeCanonicalSolution` runs, the
result is the pointwise canonical value `(-b[n-1]/beta)*(eta[i]/d[i])`
shifted by the mean of the canonical values, and its total sum — hence its
mean — is exactly 0 in exact arithmetic. -/
theorem claim_C7_canonical_solution_centered (n : ℕ) (b d : ℕ → ℚ)
    (eta : List ℚ) (beta : ℚ) :
    (computeCanonicalSolution n b d eta beta).sum = 0
    ∧ ∀ i : ℕ, i < n →
        (computeCanonicalSolution n b d eta beta).getD i 0
          = (-(b (n - 1)) / beta) * (eta.getD i 0 / d i)
            - (canonicalRaw n b d eta beta).sum / (n : ℚ) := by
  constructor
  · unfold computeCanonicalSolution
    rw [list_sum_map_sub, canonicalRaw_length]
    rcases Nat.eq_zero_or_pos n with hn | hn
    · subst hn
      simp [canonicalRaw]
    · have hne : (n : ℚ) ≠ 0 := Nat.cast_ne_zero.mpr (by omega)
      field_simp
  · intro i hi
    unfold computeCanonicalSolution canonicalRaw
    rw [List.map_map]
    simp [List.getD_eq_getElem?_getD, List.getElem?_map, List.getElem?_range hi,
      canonicalRaw]

/-- Witness for C7: a concrete one-vertex instance; its solution list sums
to 0 and its entry matches the centered canonical formula. -/
theorem claim_C7_witness :
    (computeCanonicalSolution 1 (fun _ => 2) (fun _ => 1) [1] 1).sum = 0
    ∧ (computeCanonicalSolution 1 (fun _ => 2) (fun _ => 1) [1] 1).getD 0 0
      = -2 / 1 * (([(1 : ℚ)].getD 0 0) / 1)
        - (canonicalRaw 1 (fun _ => 2) (fun _ => 1) [1] 1).sum / ((1 : ℕ) : ℚ) :=
  ⟨(claim_C7_canonical_solution_centered 1 (fun _ => 2) (fun _ => 1) [1] 1).1,
   (claim_C7_canonical_solution_centered 1 (fun _ => 2) (fun _ => 1) [1] 1).2 0
     (by norm_num)⟩

/-- Processing vertex `j` changes no queue slot other than `j`: routed
packets go to the inbox, never directly to a queue. -/
theorem vertexStep_Q_other (n : ℕ) (aliasT prob : ℕ → ℕ → ℚ) (beta : ℚ)
    (J : ℕ → ℚ) (j i : ℕ) (st : SimState) (h : j ≠ i) :
    (vertexStep n aliasT prob beta J j st).Q i = st.Q i := by
  simp only [vertexStep]
  repeat' split
  all_goals simp [upd, Ne.symm h]

/-- A whole prefix of the vertex phase leaves every queue slot it does not
own untouched. -/
theorem foldl_vertexStep_Q_untouched (n : ℕ) (aliasT prob : ℕ → ℕ → ℚ)
    (beta : ℚ) (J : ℕ → ℚ) (l : List ℕ) (i : ℕ) (h : ∀ j ∈ l, j ≠ i) :
    ∀ st : SimState,
      ((l.foldl (fun s j => vertexStep n aliasT prob beta J j s) st).Q i
        = st.Q i) := by
  induction l with
  | nil => intro st; rfl
  | cons j t ih =>
    intro st
    rw [List.foldl_cons]
    rw [ih (fun a ha => h a (List.mem_cons_of_mem j ha))]
    exact vertexStep_Q_other n aliasT prob beta J j i st (h j (List.mem_cons_self j t))

/-- A merge step for slot `j` touches no other slot. -/
theorem foldl_mergeStep_untouched (l : List ℕ) (i : ℕ) (h : ∀ j ∈ l, j ≠ i) :
    ∀ st : SimState,
      (l.foldl mergeStep st).Q i = st.Q i
      ∧ (l.foldl mergeStep st).inQ i = st.inQ i := by
  induction l with
  | nil => intro st; exact ⟨rfl, rfl⟩
  | cons j t ih =>
    intro st
    rw [List.foldl_cons]
    have hj := h j (List.mem_cons_self j t)
    have ht := ih (fun a ha => h a (List.mem_cons_of_mem j ha)) (mergeStep st j)
    refine ⟨?_, ?_⟩
    · rw [ht.1]; simp [mergeStep, upd, Ne.symm hj]
    · rw [ht.2]; simp [mergeStep, upd, Ne.symm hj]

/-- Peeling the last slot off the merge phase. -/
theorem mergePhase_succ (n : ℕ) (st : SimState) :
    mergePhase (n + 1) st = mergeStep (mergePhase n st) n := by
  rw [mergePhase, mergePhase, List.range_succ, List.foldl_append,
    List.foldl_cons, List.foldl_nil]

/-- After the merge phase, every inbox below `n` is zero. -/
theorem mergePhase_inQ_zero (n : ℕ) :
    ∀ (st : SimState) (i : ℕ), i < n → (mergePhase n st).inQ i = 0 := by
  induction n with
  | zero => intro st i h; omega
  | succ n ih =>
    intro st i h
    rw [mergePhase_succ]
    by_cases hi : i = n
    · subst hi; simp [mergeStep, upd]
    · have h2 : i < n := by omega
      simp only [mergeStep, upd]
      rw [if_neg hi]
      exact ih st i h2

/-- The merge phase adds each inbox (as it stood when the phase began)
into its queue, slot by slot. -/
theorem mergePhase_Q_add (n : ℕ) :
    ∀ (st : SimState) (i : ℕ), i < n →
      (mergePhase n st).Q i = st.Q i + st.inQ i := by
  induction n with
  | zero => intro st i h; omega
  | succ n ih =>
    intro st i h
    rw [mergePhase_succ]
    by_cases hi : i = n
    · have hu := foldl_mergeStep_untouched (List.range n) n
        (fun j hj => by have hj2 := List.mem_range.mp hj; omega) st
      have h1 : (mergePhase n st).Q n = st.Q n := hu.1
      have h2 : (mergePhase n st).inQ n = st.inQ n := hu.2
      simp only [mergeStep, upd]
      rw [if_pos hi, hi, h1, h2]
    · have h2 : i < n := by omega
      simp only [mergeStep, upd]
      rw [if_neg hi]
      exact ih st i h2

/-- Claim C8 (confirmed): the queue update of `estimateEta` is two-phase.
First conjunct: after any full time step every inbox `inQ[i]`, `i < n`, is
zero — since `estimateEta` also starts from all-zero inboxes, every time
step begins with all inboxes zero.  Second conjunct: while the vertex
phase runs, a queue slot not owned by an already-processed vertex is
untouched (packets routed by departures land only in `inQ`), so vertex `i`
decides its injection/departure from its start-of-step queue value alone,
never seeing same-step arrivals.  Third conjunct: the queues visible after
the step are exactly the post-vertex-phase queues plus the accumulated
inboxes, merged only after all vertices were processed. -/
theorem claim_C8_two_phase_update (n : ℕ) (aliasT prob : ℕ → ℕ → ℚ)
    (beta : ℚ) (J : ℕ → ℚ) :
    (∀ (st : SimState) (i : ℕ), i < n →
      (timeStep n aliasT prob beta J st).inQ i = 0)
    ∧ (∀ (st : SimState) (k i : ℕ), k ≤ i →
      ((List.range k).foldl (fun s j => vertexStep n aliasT prob beta J j s)
        st).Q i = st.Q i)
    ∧ (∀ (st : SimState) (i : ℕ), i < n →
      (timeStep n aliasT prob beta J st).Q i
        = (vertexPhase n aliasT prob beta J st).Q i
          + (vertexPhase n aliasT prob beta J st).inQ i) := by
  refine ⟨?_, ?_, ?_⟩
  · intro st i hi
    exact mergePhase_inQ_zero n (vertexPhase n aliasT prob beta J st) i hi
  · intro st k i hk
    exact foldl_vertexStep_Q_untouched n aliasT prob beta J (List.range k) i
      (fun j hj => by have := List.mem_range.mp hj; omega) st
  · intro st i hi
    exact mergePhase_Q_add n (vertexPhase n aliasT prob beta J st) i hi

/-- Witness for C8: the three facts at a concrete 1-vertex instance and
the all-zero start state. -/
theorem claim_C8_witness :
    (timeStep 1 (fun _ _ => 0) (fun _ _ => 0) 0 (fun _ => 0) simState0).inQ 0 = 0
    ∧ ((List.range 0).foldl
        (fun s j => vertexStep 1 (fun _ _ => 0) (fun _ _ => 0) 0 (fun _ => 0) j s)
        simState0).Q 0 = simState0.Q 0
    ∧ (timeStep 1 (fun _ _ => 0) (fun _ _ => 0) 0 (fun _ => 0) simState0).Q 0
      = (vertexPhase 1 (fun _ _ => 0) (fun _ _ => 0) 0 (fun _ => 0) simState0).Q 0
        + (vertexPhase 1 (fun _ _ => 0) (fun _ _ => 0) 0 (fun _ => 0) simState0).inQ 0 :=
  ⟨(claim_C8_two_phase_update 1 (fun _ _ => 0) (fun _ _ => 0) 0 (fun _ => 0)).1
      simState0 0 (by norm_num),
   (claim_C8_two_phase_update 1 (fun _ _ => 0) (fun _ _ => 0) 0 (fun _ => 0)).2.1
      simState0 0 0 (le_refl 0),
   (claim_C8_two_phase_update 1 (fun _ _ => 0) (fun _ _ => 0) 0 (fun _ => 0)).2.2
      simState0 0 (by norm_num)⟩

/-- Scaling `b` by a nonzero constant leaves the injection rates unchanged:
`-(c*b[i])/(c*b[n-1]) = -b[i]/b[n-1]`. -/
theorem computeJ_scale (n : ℕ) (b : ℕ → ℚ) (c : ℚ) (hc : c ≠ 0) :
    computeJ n (fun i => c * b i) = computeJ n b := by
  funext i
  unfold computeJ
  rw [neg_div, neg_div, mul_div_mul_left _ _ hc]

/-- Scaling `b` scales every canonical value. -/
theorem canonicalRaw_scale (n : ℕ) (b d : ℕ → ℚ) (eta : List ℚ) (beta c : ℚ) :
    canonicalRaw n (fun i => c * b i) d eta beta
      = (canonicalRaw n b d eta beta).map fun v => c * v := by
  unfold canonicalRaw
  rw [List.map_map]
  congr 1
  funext i
  simp only [Function.comp]
  ring

/-- Scaling `b` scales the centered canonical solution pointwise. -/
theorem computeCanonicalSolution_scale (n : ℕ) (b d : ℕ → ℚ) (eta : List ℚ)
    (beta c : ℚ) :
    computeCanonicalSolution n (fun i => c * b i) d eta beta
      = (computeCanonicalSolution n b d eta beta).map fun v => c * v := by
  unfold computeCanonicalSolution
  rw [canonicalRaw_scale, list_sum_map_mul, List.map_map, List.map_map]
  congr 1
  funext v
  simp only [Function.comp]
  ring

/-- Scaling `b` maps the assert-guarded solve tail through the same
pointwise scaling. -/
theorem solveFromSearch_scale (n : ℕ) (b d : ℕ → ℚ) (eta : List ℚ)
    (beta c : ℚ) :
    solveFromSearch n (fun i => c * b i) d eta beta
      = Except.map (fun x => x.map fun v => c * v)
          (solveFromSearch n b d eta beta) := by
  unfold solveFromSearch
  by_cases h : 0 < beta
  · rw [if_pos h, if_pos h]
    simp [Except.map, computeCanonicalSolution_scale]
  · rw [if_neg h, if_neg h]
    rfl

/-- Claim C10 (confirmed): the solver is scale-equivariant in `b`, in
exact arithmetic.  For every nonzero constant `c`: `computeJ` is unchanged
under `b ↦ c*b`; hence, from the same generator state, the whole halving
search (`computeEtaAtStationarity`) runs identically — same accepted β,
same η, same final generator state; and `solve` returns exactly the
pointwise `c`-multiple of the solution it returns on `b` (the same abort
outcome in the assert case). -/
theorem claim_C10_scale_equivariance (n : ℕ) (P : ℕ → ℕ → ℚ) (d b : ℕ → ℚ)
    (e1 e2 : ℚ) (fuel : ℕ) (s : Rng) (c : ℚ) (hc : c ≠ 0) :
    computeJ n (fun i => c * b i) = computeJ n b
    ∧ computeEtaAtStationarity n P (fun i => c * b i) e1 e2 fuel s
      = computeEtaAtStationarity n P b e1 e2 fuel s
    ∧ solve n P d (fun i => c * b i) e1 e2 fuel s
      = Option.map (Except.map (fun x => x.map fun v => c * v))
          (solve n P d b e1 e2 fuel s) := by
  have hJ := computeJ_scale n b c hc
  have hEta : computeEtaAtStationarity n P (fun i => c * b i) e1 e2 fuel s
      = computeEtaAtStationarity n P b e1 e2 fuel s := by
    unfold computeEtaAtStationarity
    rw [hJ]
  refine ⟨hJ, hEta, ?_⟩
  unfold solve
  rw [hEta, Option.map_map]
  congr 1
  funext r
  simp only [Function.comp]
  exact solveFromSearch_scale n b d r.2.1 r.1 c

/-- Witness for C10: the instantiation at `c = 2` on the degenerate
0-vertex instance. -/
theorem claim_C10_witness :
    computeJ 0 (fun i => 2 * (fun _ => (1 : ℚ)) i) = computeJ 0 (fun _ => (1 : ℚ))
    ∧ computeEtaAtStationarity 0 (fun _ _ => 0) (fun i => 2 * (fun _ => (1 : ℚ)) i)
        (1 / 10) (1 / 10) 1 rngInit
      = computeEtaAtStationarity 0 (fun _ _ => 0) (fun _ => (1 : ℚ))
        (1 / 10) (1 / 10) 1 rngInit
    ∧ solve 0 (fun _ _ => 0) (fun _ => 0) (fun i => 2 * (fun _ => (1 : ℚ)) i)
        (1 / 10) (1 / 10) 1 rngInit
      = Option.map (Except.map (fun x => x.map fun v => 2 * v))
          (solve 0 (fun _ _ => 0) (fun _ => 0) (fun _ => (1 : ℚ))
            (1 / 10) (1 / 10) 1 rngInit) :=
  claim_C10_scale_equivariance 0 (fun _ _ => 0) (fun _ => 0) (fun _ => (1 : ℚ))
    (1 / 10) (1 / 10) 1 rngInit 2 (by norm_num)
